import Mathlib

/-!
# Verification of the csvprocessor chunked row pipeline

A shallow embedding of the core of `github.com/sivaramasubramanian/csvprocessor`:
the chunk-boundary state machine (`Processor.process`), header memoization
(`writeHeaders`), configuration validation (`validate` / `New`), the row
transformers (`NoOpTransformer`, `AddChunkRowNoTransformer`,
`ChainTransformers`) and the fault-isolation wrapper (`PanicSafe`).

Modelling choices:
* A CSV row is a list of field strings (`Row`).
* The row source is the Go `CsvReader` contract `Read() → ([]string, error)`:
  we embed it as the list of results it produces, each a pair of a row and an
  optional error; reading past the end of the list yields `io.EOF`
  (constructor `GoErr.eof`).  An error-free source is `pureInput rows`.
* The chunk sink (`OutputChunkGenerator` + `csv.Writer`) is embedded as an
  in-memory accumulator, exactly as the repository's own tests do with
  `strings.Builder` buffers: opening a chunk always succeeds and a written
  row is appended to the open chunk.  `process` returns the list of chunks
  (each the list of rows written into it, in order) together with the final
  `currentRow` counter (the value the Go code logs as "N total rows updated").
* Go functions that may panic are embedded with an `Option` result:
  a transformer returns `none` where the Go code would panic (e.g. the
  `rowID % chunkSize` division by zero in `AddChunkRowNoTransformer` when the
  context carries no integer chunk size).  A panic escaping the transformer
  aborts `process` with `ProcessError.transformerPanic`.  A Go function known
  to be panic-free is embedded via `totalT`, which always returns `some`.
* The mutable `csvCtx` context (a map from the four `ctxKey`s to values) is
  embedded as a function `CtxKey → Option CtxVal`; `setValue` is function
  update.  Go type assertions with the comma-ok form (`v, ok := x.(int)`)
  default to `0` / `false` exactly as in the source.
* Go `int` is embedded as `Int`; `%` on Go ints truncates towards zero, which
  is `Int.tmod`.
* Logging is observationally irrelevant to the verified properties (the
  no-op logger is an accepted default) and is not modelled.
-/

/-- A CSV row: an ordered sequence of field strings. -/
abbrev Row := List String

/-- Errors a Go `CsvReader.Read` can return: the designated end-of-stream
condition `io.EOF`, or any other error (identified by its message). -/
inductive GoErr where
  | eof
  | other (msg : String)
deriving DecidableEq, Repr

/-- One result of `CsvReader.Read()`: a row together with an optional error. -/
abbrev ReadItem := Row × Option GoErr

/-- An error-free row source: every read yields a row and a nil error;
after the list is exhausted the reader reports `io.EOF`. -/
def pureInput (rows : List Row) : List ReadItem :=
  rows.map (fun r => (r, none))

/-- The four context keys of the source (`CtxChunkNum`, `CtxRowNum`,
`CtxIsHeader`, `CtxChunkSize`). -/
inductive CtxKey where
  | chunkNum
  | rowNum
  | isHeader
  | chunkSize
deriving DecidableEq, Repr

/-- A value stored in the context: the source stores Go `int`s and `bool`s. -/
inductive CtxVal where
  | intVal (i : Int)
  | boolVal (b : Bool)
deriving DecidableEq, Repr

/-- The `csvCtx` map from context keys to values (absent key = Go `nil`). -/
def csvCtx := CtxKey → Option CtxVal

/-- `newCtx()`: the empty context map. -/
def newCtx : csvCtx := fun _ => none

/-- `csvCtx.setValue`: store a value under a key (map update). -/
def setValue (c : csvCtx) (key : CtxKey) (v : CtxVal) : csvCtx :=
  fun key' => if key' = key then some v else c key'

/-- Go `v, ok := ctx.Value(k).(int)` — the comma-ok int type assertion:
yields the stored int and `true`, or `0` and `false`. -/
def assertInt (v : Option CtxVal) : Int × Bool :=
  match v with
  | some (CtxVal.intVal i) => (i, true)
  | _ => (0, false)

/-- Go `v, ok := ctx.Value(k).(bool)` — the comma-ok bool type assertion. -/
def assertBool (v : Option CtxVal) : Bool × Bool :=
  match v with
  | some (CtxVal.boolVal b) => (b, true)
  | _ => (false, false)

/-- `CsvRowTransformer`: a Go transformer `func(context.Context, []string) []string`.
The `Option` result embeds panics: `none` means the Go call panics. -/
def CsvRowTransformer := csvCtx → Row → Option Row

/-- Embeds a panic-free Go transformer as a `CsvRowTransformer`. -/
def totalT (t : csvCtx → Row → Row) : CsvRowTransformer :=
  fun ctx row => some (t ctx row)

/-- `NoOpTransformer()`: returns the row unchanged (and never panics). -/
def NoOpTransformer : CsvRowTransformer :=
  fun _ row => some row

/-- `addToSliceAtIndex(slice, val, index)`: inserts `val` at position `index`,
shifting the remaining elements (valid for `index ≤ slice.length`, the only
way the source calls it). -/
def addToSliceAtIndex (slice : List String) (val : String) (index : Nat) : List String :=
  slice.take index ++ val :: slice.drop index

/-- `AddChunkRowNoTransformer(columnName)`: inserts the row number within the
current chunk at index 0 (`rowID % chunkSize`, mapped to `chunkSize` when the
remainder is 0), or `columnName` on header rows.  The comma-ok type
assertions default missing context values to `0`; `rowID % 0` panics in Go
(integer division by zero), embedded as `none`. -/
def AddChunkRowNoTransformer (columnName : String) : CsvRowTransformer :=
  fun ctx row =>
    let ih := assertBool (ctx CtxKey.isHeader)
    if ih.2 && ih.1 then
      some (addToSliceAtIndex row columnName 0)
    else
      let rowID := (assertInt (ctx CtxKey.rowNum)).1
      let chunkSize := (assertInt (ctx CtxKey.chunkSize)).1
      if chunkSize = 0 then
        none
      else
        let chunkRowID := rowID.tmod chunkSize
        let chunkRowID := if chunkRowID = 0 then chunkSize else chunkRowID
        some (addToSliceAtIndex row (toString chunkRowID) 0)

/-- `ChainTransformers(transformers...)`: applies the transformers in order,
each consuming the previous one's output; a panic in any of them propagates
(monadic bind on the panic embedding).  The one context is passed to every
transformer. -/
def ChainTransformers (transformers : List CsvRowTransformer) : CsvRowTransformer :=
  fun ctx row => transformers.foldlM (fun r t => t ctx r) row

/-- `PanicSafe(transformer, log)`: runs the transformer under a deferred
`recover`.  If the transformer panics, the panic is logged and swallowed and
the wrapper returns the zero value of the (unnamed) `[]string` result — the
nil slice, embedded as `[]` — not the input row. -/
def PanicSafe (transformer : CsvRowTransformer) : CsvRowTransformer :=
  fun ctx row => some ((transformer ctx row).getD [])

/-- The `Processor` configuration assembled by `New`.  The reader is the
embedded row source (`none` = Go nil reader); `outputChunkGenerator` is
`some ()` when a generator is configured (the accumulator sink, as in the
repository's tests) and `none` for Go nil. -/
structure Processor where
  chunkSize : Int
  rowTransformer : CsvRowTransformer
  skipHeaders : Bool
  header : Option Row
  reader : Option (List ReadItem)
  outputChunkGenerator : Option Unit

/-- `defaultProcessor`: the defaults `New` starts from (no reader, no
generator, chunk size 0, identity transformer, headers written). -/
def defaultProcessor : Processor :=
  { chunkSize := 0
    rowTransformer := NoOpTransformer
    skipHeaders := false
    header := none
    reader := none
    outputChunkGenerator := none }

/-- A functional option (`csvprocessor.Option`); the modelled options never
return an error. -/
def ProcOption := Processor → Processor

/-- `WithReader`. -/
def WithReader (r : List ReadItem) : ProcOption :=
  fun c => { c with reader := some r }

/-- `WithWriterGenerator` (the generator itself is the accumulator sink). -/
def WithWriterGenerator : ProcOption :=
  fun c => { c with outputChunkGenerator := some () }

/-- `WithChunkSize`. -/
def WithChunkSize (size : Int) : ProcOption :=
  fun c => { c with chunkSize := size }

/-- `WithTransformer`; a nil transformer falls back to `NoOpTransformer`. -/
def WithTransformer (t : Option CsvRowTransformer) : ProcOption :=
  fun c => { c with rowTransformer := t.getD NoOpTransformer }

/-- `SkipHeaders`. -/
def SkipHeaders (skip : Bool) : ProcOption :=
  fun c => { c with skipHeaders := skip }

/-- The three distinct validation errors of `new.go`. -/
inductive ValidationError where
  | inputReaderNil
  | outputChunkGeneratorNotSet
  | invalidChunkSize
deriving DecidableEq, Repr

/-- `validate(c)`: rejects a nil reader, then a nil chunk generator, then a
non-positive chunk size, each with its own error. -/
def validate (c : Processor) : Except ValidationError Processor :=
  if c.reader.isNone then
    Except.error ValidationError.inputReaderNil
  else if c.outputChunkGenerator.isNone then
    Except.error ValidationError.outputChunkGeneratorNotSet
  else if c.chunkSize ≤ 0 then
    Except.error ValidationError.invalidChunkSize
  else
    Except.ok c

/-- `New(opts...)`: applies the options to the default processor, then
validates exactly once; an invalid configuration yields an error and no
processor. -/
def New (opts : List ProcOption) : Except ValidationError Processor :=
  validate (opts.foldl (fun c o => o c) defaultProcessor)

/-- `process` aborts abnormally only when a transformer panic escapes
(the sink and generator are the infallible in-memory accumulator). -/
inductive ProcessError where
  | transformerPanic
deriving DecidableEq, Repr

/-- The local state of the `process` loop: the row and split counters, the
`addHeaders` / `needNewChunk` flags, the memoized header row (`c.header`),
the already flushed-and-closed chunks and the currently open chunk. -/
structure LoopState where
  currentRow : Int
  currentSplit : Int
  addHeaders : Bool
  needNewChunk : Bool
  header : Option Row
  closed : List (List Row)
  current : Option (List Row)

/-- Closing the open chunk (`flushAndCloseFile`): its rows join the closed
chunks; a nil writer is a no-op. -/
def closeChunk (closed : List (List Row)) (current : Option (List Row)) : List (List Row) :=
  closed ++ current.toList

/-- Writing one row into the open chunk (`fileWriter.Write`). -/
def writeRow (current : Option (List Row)) (row : Row) : Option (List Row) :=
  some (current.getD [] ++ [row])

/-- `writeHeaders(row, ctx, fileWriter)`: memoize the first ever row as the
header if not yet captured, mark the context as a header with row number −1,
transform the memoized header and write the result.  Returns the new header
field, the updated context and the transformed row (`none` = the transformer
panicked). -/
def writeHeaders (T : CsvRowTransformer) (header : Option Row) (row : Row)
    (ctx : csvCtx) : Option Row × csvCtx × Option Row :=
  let header := some (header.getD row)
  let ctx := setValue (setValue ctx CtxKey.isHeader (CtxVal.boolVal true))
      CtxKey.rowNum (CtxVal.intVal (-1))
  (header, ctx, T ctx (header.getD row))

/-- One iteration of the `process` loop body for a row that was read without
hitting `io.EOF`, returning the updated state and context (or the panic
aborting the run).  Mirrors the body of the Go `for` loop: open a new chunk
when flagged, write the (memoized) header when flagged — skipping the data
step for the very first row of the run — then count, transform and write the
row as data and recompute the rollover flag. -/
def processStep (chunkSize : Int) (skipHeaders : Bool) (T : CsvRowTransformer)
    (row : Row) (st : LoopState) (ctx : csvCtx) :
    Except ProcessError (LoopState × csvCtx) :=
  -- if needNewChunk { close previous chunk; currentSplit++; new chunk }
  let st' := if st.needNewChunk then
      { st with
        closed := closeChunk st.closed st.current
        currentSplit := st.currentSplit + 1
        addHeaders := !skipHeaders
        current := some [] }
    else st
  let ctx' := if st.needNewChunk then
      setValue ctx CtxKey.chunkNum (CtxVal.intVal (st.currentSplit + 1))
    else ctx
  -- if addHeaders { transform and write header; skip data for the first row }
  let headerStep :=
    if st'.addHeaders then
      let w := writeHeaders T st'.header row ctx'
      match w.2.2 with
      | none => Except.error ProcessError.transformerPanic
      | some hrow =>
          let st'' := { st' with
            header := w.1
            addHeaders := false
            current := writeRow st'.current hrow }
          Except.ok (st'', w.2.1, decide (st'.currentRow = 0))
    else
      Except.ok (st', ctx', false)
  match headerStep with
  | Except.error e => Except.error e
  | Except.ok (st'', ctx'', firstRow) =>
      if firstRow then
        -- very first row of the run: header only, continue
        Except.ok ({ st'' with needNewChunk := false }, ctx'')
      else
        -- currentRow++; transform and write the row; set rollover flag
        let r := st''.currentRow + 1
        let ctx3 := setValue (setValue ctx'' CtxKey.isHeader (CtxVal.boolVal false))
            CtxKey.rowNum (CtxVal.intVal r)
        match T ctx3 row with
        | none => Except.error ProcessError.transformerPanic
        | some drow =>
            Except.ok ({ st'' with
              currentRow := r
              current := writeRow st''.current drow
              needNewChunk := r.tmod chunkSize = 0 }, ctx3)

/-- The `process` loop: read rows until `io.EOF` (reading past the embedded
stream is `io.EOF` too), run the loop body for each row — note that, as in
the source, a non-EOF read error is never examined — and on exhaustion flush
and close the last open chunk, returning all chunks and the final row count. -/
def processLoop (chunkSize : Int) (skipHeaders : Bool) (T : CsvRowTransformer) :
    List ReadItem → LoopState → csvCtx → Except ProcessError (List (List Row) × Int)
  | [], st, _ => Except.ok (closeChunk st.closed st.current, st.currentRow)
  | (row, err) :: rest, st, ctx =>
      if err = some GoErr.eof then
        Except.ok (closeChunk st.closed st.current, st.currentRow)
      else
        match processStep chunkSize skipHeaders T row st ctx with
        | Except.error e => Except.error e
        | Except.ok (st', ctx') => processLoop chunkSize skipHeaders T rest st' ctx'

/-- `Processor.process()`: initialize the counters and flags, store the chunk
size in the context, and run the loop over the configured reader. -/
def Processor.process (c : Processor) : Except ProcessError (List (List Row) × Int) :=
  let ctx := setValue newCtx CtxKey.chunkSize (CtxVal.intVal c.chunkSize)
  processLoop c.chunkSize c.skipHeaders c.rowTransformer (c.reader.getD [])
    { currentRow := 0
      currentSplit := 0
      addHeaders := !c.skipHeaders
      needNewChunk := true
      header := c.header
      closed := []
      current := none } ctx

/-- A terminal error of building and running a pipeline: either one of the
three configuration errors (reported by `New`, before any row is read), or a
transformer panic during processing. -/
inductive RunError where
  | config (e : ValidationError)
  | proc (e : ProcessError)
deriving DecidableEq, Repr

/-- Build a processor with `New` and, only on success, run it: an invalid
configuration never reads a row and never creates a chunk. -/
def run (opts : List ProcOption) : Except RunError (List (List Row) × Int) :=
  match New opts with
  | Except.error e => Except.error (RunError.config e)
  | Except.ok c =>
      match c.process with
      | Except.error e => Except.error (RunError.proc e)
      | Except.ok out => Except.ok out

/-! ## Closed forms

The context the engine presents to the transformer for a data row / header
row, and the closed-form description of the chunks `process` produces, used
as the right-hand sides of the characterization theorems below. -/

/-- The context the engine has built when it transforms the data row with
overall 1-based ordinal `r` inside chunk `split`: all four keys are set. -/
def dataCtx (k split r : Int) : csvCtx :=
  setValue (setValue (setValue (setValue newCtx CtxKey.chunkSize (CtxVal.intVal k))
    CtxKey.chunkNum (CtxVal.intVal split)) CtxKey.isHeader (CtxVal.boolVal false))
    CtxKey.rowNum (CtxVal.intVal r)

/-- The context the engine has built when it transforms the header row for
chunk `split`: `isHeader` is true and the row ordinal is the sentinel −1. -/
def headerCtx (k split : Int) : csvCtx :=
  setValue (setValue (setValue (setValue newCtx CtxKey.chunkSize (CtxVal.intVal k))
    CtxKey.chunkNum (CtxVal.intVal split)) CtxKey.isHeader (CtxVal.boolVal true))
    CtxKey.rowNum (CtxVal.intVal (-1))

/-- The transformed data rows, in order, for a panic-free transformer `t`:
starting after `m` already-processed data rows, of which `c` sit in the
currently open chunk number `s` (capacity `k`), each row is transformed under
the engine's data context (global ordinal `m+1`, `m+2`, …; the chunk ordinal
advances from `s` every `k` rows). -/
def ttf (t : csvCtx → Row → Row) (k : Nat) : Nat → Nat → Nat → List Row → List Row
  | _, _, _, [] => []
  | m, s, c, row :: rows =>
      t (dataCtx (k : Int) ((s + c / k : Nat) : Int) ((m + 1 : Nat) : Int)) row ::
        ttf t k (m + 1) s (c + 1) rows

/-- Grouping a list into consecutive chunks of `k` elements (the last chunk
may be shorter); the closed form of the chunks when headers are skipped. -/
def groupk (k : Nat) : List α → List (List α)
  | [] => []
  | x :: rest => (x :: rest.take (k - 1)) :: groupk k (rest.drop (k - 1))
termination_by l => l.length
decreasing_by
  simp only [List.length_cons, List.length_drop]
  omega

/-- Grouping into chunks of `k` with the transformed memoized header row `h`
prepended to each chunk, the first group getting chunk ordinal `s`; the
closed form of the chunks when headers are written. -/
def hgroups (t : csvCtx → Row → Row) (k : Nat) (h : Row) : Nat → List Row → List (List Row)
  | _, [] => []
  | s, x :: rest =>
      (t (headerCtx (k : Int) (s : Int)) h :: x :: rest.take (k - 1)) ::
        hgroups t k h (s + 1) (rest.drop (k - 1))
termination_by _ l => l.length
decreasing_by
  simp only [List.length_cons, List.length_drop]
  omega

/-! ## Context lemmas -/

theorem setValue_same (c : csvCtx) (key : CtxKey) (v : CtxVal) :
    setValue c key v key = some v := by
  simp [setValue]

theorem setValue_other (c : csvCtx) {key key' : CtxKey} (v : CtxVal) (h : key' ≠ key) :
    setValue c key v key' = c key' := by
  simp [setValue, h]

/-- Whatever stale values the engine's context holds, overwriting `isHeader`
and `rowNum` for a data row yields exactly `dataCtx` once the chunk size and
chunk number entries are known. -/
theorem ctx_data_eq {ctx : csvCtx} {k s : Int}
    (hk : ctx CtxKey.chunkSize = some (CtxVal.intVal k))
    (hs : ctx CtxKey.chunkNum = some (CtxVal.intVal s)) (r : Int) :
    setValue (setValue ctx CtxKey.isHeader (CtxVal.boolVal false)) CtxKey.rowNum
      (CtxVal.intVal r) = dataCtx k s r := by
  funext key
  cases key <;> simp [setValue, dataCtx, newCtx, hk, hs]

/-- Same for a header emission: overwriting `isHeader := true` and
`rowNum := −1` yields exactly `headerCtx`. -/
theorem ctx_header_eq {ctx : csvCtx} {k s : Int}
    (hk : ctx CtxKey.chunkSize = some (CtxVal.intVal k))
    (hs : ctx CtxKey.chunkNum = some (CtxVal.intVal s)) :
    setValue (setValue ctx CtxKey.isHeader (CtxVal.boolVal true)) CtxKey.rowNum
      (CtxVal.intVal (-1)) = headerCtx k s := by
  funext key
  cases key <;> simp [setValue, headerCtx, newCtx, hk, hs]

theorem dataCtx_chunkSize (k s r : Int) :
    dataCtx k s r CtxKey.chunkSize = some (CtxVal.intVal k) := by
  simp [dataCtx, setValue, newCtx]

theorem dataCtx_chunkNum (k s r : Int) :
    dataCtx k s r CtxKey.chunkNum = some (CtxVal.intVal s) := by
  simp [dataCtx, setValue, newCtx]

theorem headerCtx_chunkSize (k s : Int) :
    headerCtx k s CtxKey.chunkSize = some (CtxVal.intVal k) := by
  simp [headerCtx, setValue, newCtx]

theorem headerCtx_chunkNum (k s : Int) :
    headerCtx k s CtxKey.chunkNum = some (CtxVal.intVal s) := by
  simp [headerCtx, setValue, newCtx]

/-! ## Arithmetic lemmas -/

/-- Go's `%` on two embedded non-negative ints is `Nat` mod. -/
theorem tmod_coe (m n : Nat) : ((m : Int)).tmod (n : Int) = ((m % n : Nat) : Int) := rfl

/-- The "`rowID % chunkSize`, replacing remainder 0 by `chunkSize`" scheme of
the source is the spec's `((n − 1) mod k) + 1`. -/
theorem mod_rotate (k n : Nat) (hk : 1 ≤ k) (hn : 1 ≤ n) :
    (if n % k = 0 then k else n % k) = (n - 1) % k + 1 := by
  rcases Nat.eq_zero_or_pos (n % k) with h | h
  · rw [if_pos h]
    obtain ⟨q, hq⟩ := Nat.dvd_of_mod_eq_zero h
    have hq1 : 1 ≤ q := by
      rcases Nat.eq_zero_or_pos q with h0 | h0
      · subst h0; omega
      · exact h0
    have hmul : k * (q - 1) = k * q - k := by
      rw [Nat.mul_sub, Nat.mul_one]
    have hAk : k ≤ k * q := Nat.le_mul_of_pos_right k hq1
    have hrw : n - 1 = (k - 1) + k * (q - 1) := by
      generalize hA : k * q = A at hq hmul hAk
      generalize hB : k * (q - 1) = B at hmul
      omega
    rw [hrw, Nat.add_mul_mod_self_left, Nat.mod_eq_of_lt (show k - 1 < k by omega)]
    omega
  · rw [if_neg (by omega)]
    have hd := Nat.div_add_mod n k
    have hlt : n % k < k := Nat.mod_lt n (by omega)
    have hrw : n - 1 = (n % k - 1) + k * (n / k) := by
      generalize hC : k * (n / k) = C at hd
      omega
    rw [hrw, Nat.add_mul_mod_self_left,
      Nat.mod_eq_of_lt (show n % k - 1 < k by omega)]
    omega

/-- After `m = (s−1)·k + c` data rows with `1 ≤ c ≤ k` of them in the open
chunk, the rollover test `m % k == 0` fires exactly when the chunk is full. -/
theorem boundary_mod (k s c : Nat) (hk : 1 ≤ k) (_hs : 1 ≤ s) (hc : 1 ≤ c)
    (hck : c ≤ k) : ((s - 1) * k + c) % k = 0 ↔ c = k := by
  have hrw : (s - 1) * k + c = c + k * (s - 1) := by ring
  rw [hrw, Nat.add_mul_mod_self_left]
  rcases Nat.eq_or_lt_of_le hck with h | h
  · subst h
    simp [Nat.mod_self]
  · rw [Nat.mod_eq_of_lt h]
    omega

/-! ## Structural lemmas about the closed forms -/

theorem groupk_nil (k : Nat) : groupk k ([] : List α) = [] := by
  rw [groupk]

theorem groupk_cons (k : Nat) (x : α) (rest : List α) :
    groupk k (x :: rest) = (x :: rest.take (k - 1)) :: groupk k (rest.drop (k - 1)) := by
  rw [groupk]

theorem groupk_eq_nil_iff (k : Nat) (l : List α) : groupk k l = [] ↔ l = [] := by
  cases l with
  | nil => simp [groupk_nil]
  | cons x rest => simp [groupk_cons]

theorem length_groupk (k : Nat) (hk : 1 ≤ k) :
    ∀ l : List α, (groupk k l).length = (l.length + k - 1) / k
  | [] => by
      rw [groupk_nil]
      simp only [List.length_nil]
      rw [Nat.div_eq_of_lt (by omega)]
  | x :: rest => by
      rw [groupk_cons]
      simp only [List.length_cons]
      rw [length_groupk k hk (rest.drop (k - 1)), List.length_drop]
      by_cases hc : rest.length ≤ k - 1
      · rw [show rest.length - (k - 1) = 0 by omega]
        simp only [List.length_nil, Nat.zero_add]
        rw [Nat.div_eq_of_lt (by omega)]
        symm
        apply Nat.div_eq_of_lt_le
        · omega
        · omega
      · rw [show rest.length - (k - 1) + k - 1 = rest.length by omega]
        rw [show rest.length + 1 + k - 1 = rest.length + k by omega]
        rw [Nat.add_div_right _ (by omega)]
termination_by l => l.length
decreasing_by
  simp only [List.length_cons, List.length_drop]
  omega

theorem groupk_getElem (k : Nat) (hk : 1 ≤ k) :
    ∀ (l : List α) (i : Nat), i < (groupk k l).length →
      (groupk k l)[i]? = some ((l.drop (i * k)).take k)
  | [], i, hi => by
      rw [groupk_nil] at hi
      exact absurd hi (by simp)
  | x :: rest, 0, _hi => by
      rw [groupk_cons]
      simp only [List.getElem?_cons_zero, Nat.zero_mul, List.drop_zero]
      rw [show k = (k - 1) + 1 by omega, List.take_succ_cons]
      simp
  | x :: rest, i + 1, hi => by
      rw [groupk_cons] at hi ⊢
      simp only [List.getElem?_cons_succ]
      rw [groupk_getElem k hk (rest.drop (k - 1)) i (by simpa using hi)]
      rw [List.drop_drop]
      have hik : (i + 1) * k = i * k + k := Nat.succ_mul i k
      rw [show k - 1 + i * k = (i + 1) * k - 1 by
        rw [hik]; generalize i * k = P; omega]
      rw [show (i + 1) * k = ((i + 1) * k - 1) + 1 by
        rw [hik]; generalize i * k = P; omega]
      rw [List.drop_succ_cons]
      simp
termination_by l => l.length
decreasing_by
  simp only [List.length_cons, List.length_drop]
  omega

theorem length_ttf (t : csvCtx → Row → Row) (k : Nat) :
    ∀ (rows : List Row) (m s c : Nat), (ttf t k m s c rows).length = rows.length
  | [], _, _, _ => rfl
  | _ :: rows, m, s, c => by
      simp only [ttf, List.length_cons]
      rw [length_ttf t k rows (m + 1) s (c + 1)]

/-- Advancing the chunk ordinal: `k + c` data rows before the next boundary
is the same numbering as `c` rows with the ordinal bumped by one. -/
theorem ttf_shift (t : csvCtx → Row → Row) (k : Nat) (hk : 1 ≤ k) :
    ∀ (rows : List Row) (m s c : Nat),
      ttf t k m s (k + c) rows = ttf t k m (s + 1) c rows
  | [], _, _, _ => rfl
  | row :: rows, m, s, c => by
      simp only [ttf]
      rw [show k + c + 1 = k + (c + 1) by omega]
      rw [ttf_shift t k hk rows (m + 1) s (c + 1)]
      rw [show s + (k + c) / k = s + 1 + c / k by
        rw [Nat.add_comm k c, Nat.add_div_right c (by omega)]
        generalize c / k = d
        omega]

theorem ttf_getElem (t : csvCtx → Row → Row) (k : Nat) :
    ∀ (rows : List Row) (m s c i : Nat), i < rows.length →
      (ttf t k m s c rows)[i]? = (rows[i]?).map
        (fun r => t (dataCtx (k : Int) ((s + (c + i) / k : Nat) : Int)
          ((m + 1 + i : Nat) : Int)) r)
  | [], _, _, _, i, hi => by simp at hi
  | row :: rows, m, s, c, 0, _hi => by
      simp [ttf]
  | row :: rows, m, s, c, i + 1, hi => by
      simp only [ttf, List.getElem?_cons_succ]
      rw [ttf_getElem t k rows (m + 1) s (c + 1) i (by simpa using hi)]
      rw [show c + 1 + i = c + (i + 1) by omega]
      rw [show m + 1 + 1 + i = m + 1 + (i + 1) by omega]

theorem hgroups_nil (t : csvCtx → Row → Row) (k : Nat) (h : Row) (s : Nat) :
    hgroups t k h s [] = [] := by
  rw [hgroups]

theorem hgroups_cons (t : csvCtx → Row → Row) (k : Nat) (h : Row) (s : Nat)
    (x : Row) (rest : List Row) :
    hgroups t k h s (x :: rest) =
      (t (headerCtx (k : Int) (s : Int)) h :: x :: rest.take (k - 1)) ::
        hgroups t k h (s + 1) (rest.drop (k - 1)) := by
  rw [hgroups]

theorem length_hgroups (t : csvCtx → Row → Row) (k : Nat) (h : Row) :
    ∀ (l : List Row) (s : Nat), (hgroups t k h s l).length = (groupk k l).length
  | [], _ => by rw [hgroups_nil, groupk_nil]
  | x :: rest, s => by
      rw [hgroups_cons, groupk_cons]
      simp only [List.length_cons]
      rw [length_hgroups t k h (rest.drop (k - 1)) (s + 1)]
termination_by l => l.length
decreasing_by
  simp only [List.length_cons, List.length_drop]
  omega

theorem hgroups_getElem (t : csvCtx → Row → Row) (k : Nat) (h : Row) (hk : 1 ≤ k) :
    ∀ (l : List Row) (s i : Nat), i < (hgroups t k h s l).length →
      (hgroups t k h s l)[i]? =
        some (t (headerCtx (k : Int) ((s + i : Nat) : Int)) h :: (l.drop (i * k)).take k)
  | [], s, i, hi => by
      rw [hgroups_nil] at hi
      exact absurd hi (by simp)
  | x :: rest, s, 0, _hi => by
      rw [hgroups_cons]
      simp only [List.getElem?_cons_zero, Nat.zero_mul, List.drop_zero, Nat.add_zero]
      rw [show k = (k - 1) + 1 by omega, List.take_succ_cons]
      simp
  | x :: rest, s, i + 1, hi => by
      rw [hgroups_cons] at hi ⊢
      simp only [List.getElem?_cons_succ]
      rw [hgroups_getElem t k h hk (rest.drop (k - 1)) (s + 1) i (by simpa using hi)]
      rw [List.drop_drop]
      have hik : (i + 1) * k = i * k + k := Nat.succ_mul i k
      rw [show k - 1 + i * k = (i + 1) * k - 1 by
        rw [hik]; generalize i * k = P; omega]
      rw [show (i + 1) * k = ((i + 1) * k - 1) + 1 by
        rw [hik]; generalize i * k = P; omega]
      rw [List.drop_succ_cons]
      rw [show s + 1 + i = s + (i + 1) by omega]
      simp
termination_by l => l.length
decreasing_by
  simp only [List.length_cons, List.length_drop]
  omega

/-! ## Unfolding lemmas for the engine loop -/

theorem pureInput_nil : pureInput [] = [] := rfl

theorem pureInput_cons (row : Row) (rows : List Row) :
    pureInput (row :: rows) = (row, none) :: pureInput rows := rfl

theorem closeChunk_some (closed : List (List Row)) (cur : List Row) :
    closeChunk closed (some cur) = closed ++ [cur] := rfl

theorem closeChunk_none (closed : List (List Row)) :
    closeChunk closed none = closed := by
  simp [closeChunk]

theorem writeRow_some (cur : List Row) (row : Row) :
    writeRow (some cur) row = some (cur ++ [row]) := rfl

theorem processLoop_nil (k : Int) (skip : Bool) (T : CsvRowTransformer)
    (st : LoopState) (ctx : csvCtx) :
    processLoop k skip T [] st ctx =
      Except.ok (closeChunk st.closed st.current, st.currentRow) := rfl

theorem processLoop_cons (k : Int) (skip : Bool) (T : CsvRowTransformer)
    (row : Row) (rest : List ReadItem) (st : LoopState) (ctx : csvCtx) :
    processLoop k skip T ((row, none) :: rest) st ctx =
      match processStep k skip T row st ctx with
      | Except.error e => Except.error e
      | Except.ok (st', ctx') => processLoop k skip T rest st' ctx' := by
  rw [processLoop]
  simp

/-! ## Mid-stream characterization of the engine loop -/

/-- Mid-stream invariant, headers skipped: after `(s−1)·k + c` data rows
(`c` of them in the open chunk number `s`, `1 ≤ c ≤ k`), processing the
remaining error-free rows appends them to the open chunk and then groups of
`k`, with data contexts numbered globally. -/
theorem processLoop_noHeader (k : Nat) (hk : 1 ≤ k) (t : csvCtx → Row → Row) :
    ∀ (rows : List Row) (closed : List (List Row)) (cur : List Row) (s c : Nat)
      (hh : Option Row) (ctx : csvCtx),
      ctx CtxKey.chunkSize = some (CtxVal.intVal (k : Int)) →
      ctx CtxKey.chunkNum = some (CtxVal.intVal (s : Int)) →
      1 ≤ c → c ≤ k → 1 ≤ s →
      processLoop (k : Int) true (totalT t) (pureInput rows)
        { currentRow := (((s - 1) * k + c : Nat) : Int), currentSplit := (s : Int),
          addHeaders := false, needNewChunk := decide (c = k), header := hh,
          closed := closed, current := some cur } ctx
      = Except.ok
          (closed ++ (cur ++ (ttf t k ((s - 1) * k + c) s c rows).take (k - c)) ::
              groupk k ((ttf t k ((s - 1) * k + c) s c rows).drop (k - c)),
            (((s - 1) * k + c + rows.length : Nat) : Int))
  | [], closed, cur, s, c, hh, ctx, hcs, hcn, hc1, hck, hs => by
      rw [pureInput_nil, processLoop_nil]
      simp only [ttf, List.take_nil, List.drop_nil, List.append_nil, groupk_nil,
        closeChunk_some, List.length_nil, Nat.add_zero]
  | row :: rows, closed, cur, s, c, hh, ctx, hcs, hcn, hc1, hck, hs => by
      rw [pureInput_cons, processLoop_cons]
      rcases Nat.eq_or_lt_of_le hck with hceq | hclt
      · -- c = k : the open chunk is full; close it, open chunk s+1, write the row there
        subst hceq
        have hm : (s - 1) * c + c = s * c := by
          rw [Nat.sub_one_mul]
          have := Nat.le_mul_of_pos_left c hs
          omega
        rw [processStep]
        simp only [decide_eq_true_eq, decide_True, if_true, Bool.not_true, writeRow_some,
          closeChunk_some, writeHeaders, totalT, Bool.false_eq_true, if_false]
        -- context facts after setting the new chunk number
        have hcs2 : setValue ctx CtxKey.chunkNum (CtxVal.intVal ((s : Int) + 1))
            CtxKey.chunkSize = some (CtxVal.intVal (c : Int)) := by
          rw [setValue_other _ _ (by decide)]
          exact hcs
        have hcast : ((s : Int) + 1) = ((s + 1 : Nat) : Int) := by push_cast; ring
        have hcn2 : setValue ctx CtxKey.chunkNum (CtxVal.intVal ((s : Int) + 1))
            CtxKey.chunkNum = some (CtxVal.intVal ((s + 1 : Nat) : Int)) := by
          rw [setValue_same, hcast]
        have hr : (((s - 1) * c + c : Nat) : Int) + 1 = ((s * c + 1 : Nat) : Int) := by
          rw [hm]; push_cast; ring
        rw [hr, ctx_data_eq hcs2 hcn2]
        -- the rollover flag for the row just written
        have hnnc : decide ((((s * c + 1 : Nat) : Int)).tmod ((c : Nat) : Int) = 0)
            = decide (1 = c) := by
          rw [tmod_coe]
          apply decide_eq_decide.mpr
          rw [Int.natCast_eq_zero]
          have hb := boundary_mod c (s + 1) 1 hk (by omega) (by omega) (by omega)
          simpa using hb
        rw [hnnc]
        have IH := processLoop_noHeader c hk t rows (closed ++ [cur])
          ([] ++ [t (dataCtx (c : Int) ((s + 1 : Nat) : Int) ((s * c + 1 : Nat) : Int)) row])
          (s + 1) 1 hh
          (dataCtx (c : Int) ((s + 1 : Nat) : Int) ((s * c + 1 : Nat) : Int))
          (dataCtx_chunkSize _ _ _) (dataCtx_chunkNum _ _ _)
          (by omega) hk (by omega)
        simp only [Nat.add_sub_cancel] at IH
        rw [hcast]
        rw [IH]
        -- identify the two chunk lists
        have httAll : ttf t c ((s - 1) * c + c) s c (row :: rows)
            = t (dataCtx (c : Int) ((s + 1 : Nat) : Int) ((s * c + 1 : Nat) : Int)) row ::
                ttf t c (s * c + 1) (s + 1) 1 rows := by
          rw [ttf]
          rw [show s + c / c = s + 1 by rw [Nat.div_self (by omega)]]
          rw [show (s - 1) * c + c + 1 = s * c + 1 by omega]
          rw [show c + 1 = c + 1 by rfl]
          rw [ttf_shift t c hk rows (s * c + 1) s 1]
        rw [httAll]
        rw [Nat.sub_self, List.take_zero, List.drop_zero, groupk_cons]
        simp only [List.append_nil, List.nil_append, List.singleton_append, List.append_assoc,
          List.cons_append, List.length_cons]
        have hcount : s * c + 1 + rows.length = (s - 1) * c + c + (rows.length + 1) := by
          omega
        rw [hcount]
      · -- c < k : the row joins the open chunk
        have hd : decide (c = k) = false := by simp; omega
        rw [processStep]
        simp only [hd, Bool.false_eq_true, if_false, writeRow_some, totalT]
        have hr : (((s - 1) * k + c : Nat) : Int) + 1 = (((s - 1) * k + (c + 1) : Nat) : Int) := by
          push_cast; ring
        rw [hr, ctx_data_eq hcs hcn]
        have hnnc : decide (((((s - 1) * k + (c + 1) : Nat) : Int)).tmod ((k : Nat) : Int) = 0)
            = decide (c + 1 = k) := by
          rw [tmod_coe]
          apply decide_eq_decide.mpr
          rw [Int.natCast_eq_zero]
          exact boundary_mod k s (c + 1) hk hs (by omega) (by omega)
        rw [hnnc]
        have IH := processLoop_noHeader k hk t rows closed
          (cur ++ [t (dataCtx (k : Int) (s : Int) (((s - 1) * k + (c + 1) : Nat) : Int)) row])
          s (c + 1) hh
          (dataCtx (k : Int) (s : Int) (((s - 1) * k + (c + 1) : Nat) : Int))
          (dataCtx_chunkSize _ _ _) (dataCtx_chunkNum _ _ _)
          (by omega) (by omega) hs
        rw [IH]
        -- identify the two chunk lists
        have httAll : ttf t k ((s - 1) * k + c) s c (row :: rows)
            = t (dataCtx (k : Int) (s : Int) (((s - 1) * k + (c + 1) : Nat) : Int)) row ::
                ttf t k ((s - 1) * k + (c + 1)) s (c + 1) rows := by
          rw [ttf]
          rw [show s + c / k = s by rw [Nat.div_eq_of_lt (by omega)]; omega]
          rw [show (s - 1) * k + c + 1 = (s - 1) * k + (c + 1) by omega]
        rw [httAll]
        rw [show k - c = (k - (c + 1)) + 1 by omega, List.take_succ_cons, List.drop_succ_cons]
        simp only [List.append_assoc, List.singleton_append, List.cons_append, List.length_cons,
          List.nil_append]
        have hcount : (s - 1) * k + (c + 1) + rows.length = (s - 1) * k + c + (rows.length + 1) := by
          omega
        rw [hcount]

/-- Mid-stream invariant, headers written: the memoized header is `h`, the
open chunk number `s` already holds `c ≤ k` data rows (besides its header),
and every later chunk is re-headed from `h` before receiving its data rows. -/
theorem processLoop_withHeader (k : Nat) (hk : 1 ≤ k) (t : csvCtx → Row → Row) (h : Row) :
    ∀ (rows : List Row) (closed : List (List Row)) (cur : List Row) (s c : Nat)
      (ctx : csvCtx),
      ctx CtxKey.chunkSize = some (CtxVal.intVal (k : Int)) →
      ctx CtxKey.chunkNum = some (CtxVal.intVal (s : Int)) →
      c ≤ k → 1 ≤ s →
      processLoop (k : Int) false (totalT t) (pureInput rows)
        { currentRow := (((s - 1) * k + c : Nat) : Int), currentSplit := (s : Int),
          addHeaders := false, needNewChunk := decide (c = k), header := some h,
          closed := closed, current := some cur } ctx
      = Except.ok
          (closed ++ (cur ++ (ttf t k ((s - 1) * k + c) s c rows).take (k - c)) ::
              hgroups t k h (s + 1) ((ttf t k ((s - 1) * k + c) s c rows).drop (k - c)),
            (((s - 1) * k + c + rows.length : Nat) : Int))
  | [], closed, cur, s, c, ctx, hcs, hcn, hck, hs => by
      rw [pureInput_nil, processLoop_nil]
      simp only [ttf, List.take_nil, List.drop_nil, List.append_nil, hgroups_nil,
        closeChunk_some, List.length_nil, Nat.add_zero]
  | row :: rows, closed, cur, s, c, ctx, hcs, hcn, hck, hs => by
      rw [pureInput_cons, processLoop_cons]
      rcases Nat.eq_or_lt_of_le hck with hceq | hclt
      · -- c = k : close the full chunk, open chunk s+1, re-emit the memoized
        -- header there, then process the triggering row as data
        subst hceq
        have hm : (s - 1) * c + c = s * c := by
          rw [Nat.sub_one_mul]
          have := Nat.le_mul_of_pos_left c hs
          omega
        rw [processStep]
        simp only [decide_eq_true_eq, decide_True, if_true, Bool.not_false, writeRow_some,
          closeChunk_some, writeHeaders, totalT, Option.getD_some, if_pos]
        have hcs2 : setValue ctx CtxKey.chunkNum (CtxVal.intVal ((s : Int) + 1))
            CtxKey.chunkSize = some (CtxVal.intVal (c : Int)) := by
          rw [setValue_other _ _ (by decide)]
          exact hcs
        have hcast : ((s : Int) + 1) = ((s + 1 : Nat) : Int) := by push_cast; ring
        have hcn2 : setValue ctx CtxKey.chunkNum (CtxVal.intVal ((s : Int) + 1))
            CtxKey.chunkNum = some (CtxVal.intVal ((s + 1 : Nat) : Int)) := by
          rw [setValue_same, hcast]
        rw [ctx_header_eq hcs2 hcn2]
        rw [if_neg (show ¬ (((s - 1) * c + c : Nat) : Int) = 0 by
          simp only [Int.natCast_eq_zero]
          omega)]
        have hr : (((s - 1) * c + c : Nat) : Int) + 1 = ((s * c + 1 : Nat) : Int) := by
          rw [hm]; push_cast; ring
        rw [hr, ctx_data_eq (headerCtx_chunkSize _ _) (headerCtx_chunkNum _ _)]
        simp only [List.nil_append]
        have hnnc : decide ((((s * c + 1 : Nat) : Int)).tmod ((c : Nat) : Int) = 0)
            = decide (1 = c) := by
          rw [tmod_coe]
          apply decide_eq_decide.mpr
          rw [Int.natCast_eq_zero]
          have hb := boundary_mod c (s + 1) 1 hk (by omega) (by omega) (by omega)
          simpa using hb
        rw [hnnc]
        have IH := processLoop_withHeader c hk t h rows (closed ++ [cur])
          ([t (headerCtx (c : Int) ((s + 1 : Nat) : Int)) h] ++
            [t (dataCtx (c : Int) ((s + 1 : Nat) : Int) ((s * c + 1 : Nat) : Int)) row])
          (s + 1) 1
          (dataCtx (c : Int) ((s + 1 : Nat) : Int) ((s * c + 1 : Nat) : Int))
          (dataCtx_chunkSize _ _ _) (dataCtx_chunkNum _ _ _)
          hk (by omega)
        simp only [Nat.add_sub_cancel] at IH
        rw [hcast]
        rw [IH]
        have httAll : ttf t c ((s - 1) * c + c) s c (row :: rows)
            = t (dataCtx (c : Int) ((s + 1 : Nat) : Int) ((s * c + 1 : Nat) : Int)) row ::
                ttf t c (s * c + 1) (s + 1) 1 rows := by
          rw [ttf]
          rw [show s + c / c = s + 1 by rw [Nat.div_self (by omega)]]
          rw [show (s - 1) * c + c + 1 = s * c + 1 by omega]
          rw [ttf_shift t c hk rows (s * c + 1) s 1]
        rw [httAll]
        rw [Nat.sub_self, List.take_zero, List.drop_zero, hgroups_cons]
        simp only [List.append_nil, List.nil_append, List.singleton_append, List.append_assoc,
          List.cons_append, List.length_cons]
        have hcount : s * c + 1 + rows.length = (s - 1) * c + c + (rows.length + 1) := by
          omega
        rw [hcount]
      · -- c < k : the row joins the open chunk
        have hd : decide (c = k) = false := by simp; omega
        rw [processStep]
        simp only [hd, Bool.false_eq_true, if_false, writeRow_some, totalT]
        have hr : (((s - 1) * k + c : Nat) : Int) + 1 = (((s - 1) * k + (c + 1) : Nat) : Int) := by
          push_cast; ring
        rw [hr, ctx_data_eq hcs hcn]
        have hnnc : decide (((((s - 1) * k + (c + 1) : Nat) : Int)).tmod ((k : Nat) : Int) = 0)
            = decide (c + 1 = k) := by
          rw [tmod_coe]
          apply decide_eq_decide.mpr
          rw [Int.natCast_eq_zero]
          exact boundary_mod k s (c + 1) hk hs (by omega) (by omega)
        rw [hnnc]
        have IH := processLoop_withHeader k hk t h rows closed
          (cur ++ [t (dataCtx (k : Int) (s : Int) (((s - 1) * k + (c + 1) : Nat) : Int)) row])
          s (c + 1)
          (dataCtx (k : Int) (s : Int) (((s - 1) * k + (c + 1) : Nat) : Int))
          (dataCtx_chunkSize _ _ _) (dataCtx_chunkNum _ _ _)
          (by omega) hs
        rw [IH]
        have httAll : ttf t k ((s - 1) * k + c) s c (row :: rows)
            = t (dataCtx (k : Int) (s : Int) (((s - 1) * k + (c + 1) : Nat) : Int)) row ::
                ttf t k ((s - 1) * k + (c + 1)) s (c + 1) rows := by
          rw [ttf]
          rw [show s + c / k = s by rw [Nat.div_eq_of_lt (by omega)]; omega]
          rw [show (s - 1) * k + c + 1 = (s - 1) * k + (c + 1) by omega]
        rw [httAll]
        rw [show k - c = (k - (c + 1)) + 1 by omega, List.take_succ_cons, List.drop_succ_cons]
        simp only [List.append_assoc, List.singleton_append, List.cons_append, List.length_cons,
          List.nil_append]
        have hcount : (s - 1) * k + (c + 1) + rows.length = (s - 1) * k + c + (rows.length + 1) := by
          omega
        rw [hcount]

/-! ## Top-level characterization of `Processor.process` -/

/-- Headers skipped: on an error-free source, `process` groups the rows (each
transformed under the engine's data context) into chunks of `k` and reports
the total row count. -/
theorem process_noHeader (k : Nat) (hk : 1 ≤ k) (t : csvCtx → Row → Row) (rows : List Row) :
    Processor.process
      { chunkSize := (k : Int), rowTransformer := totalT t, skipHeaders := true,
        header := none, reader := some (pureInput rows), outputChunkGenerator := some () }
    = Except.ok (groupk k (ttf t k 0 1 0 rows), (rows.length : Int)) := by
  rw [Processor.process]
  cases rows with
  | nil =>
      simp only [Option.getD_some]
      rw [pureInput_nil, processLoop_nil]
      simp [ttf, groupk_nil, closeChunk]
  | cons row rows =>
      simp only [Option.getD_some]
      rw [pureInput_cons, processLoop_cons, processStep]
      simp only [if_pos rfl, Bool.not_true, Bool.false_eq_true, if_false, writeRow_some,
        closeChunk_none, totalT, decide_True, if_true, zero_add, List.nil_append]
      rw [ctx_data_eq (show _ = some (CtxVal.intVal ((k : Nat) : Int)) by
          rw [setValue_other _ _ (by decide), setValue_same])
        (setValue_same _ _ _)]
      have hnnc : decide (((1 : Int)).tmod ((k : Nat) : Int) = 0) = decide (1 = k) := by
        rw [show (1 : Int) = ((1 : Nat) : Int) by simp, tmod_coe]
        apply decide_eq_decide.mpr
        rw [Int.natCast_eq_zero]
        have hb := boundary_mod k 1 1 hk (by omega) (by omega) hk
        simpa using hb
      rw [hnnc]
      have IH := processLoop_noHeader k hk t rows [] [t (dataCtx (k : Int) 1 1) row] 1 1 none
        (dataCtx (k : Int) 1 1)
        (by simp [dataCtx_chunkSize]) (by simp [dataCtx_chunkNum])
        (le_refl 1) hk (le_refl 1)
      simp only [show (1 - 1) * k + 1 = 1 by simp, Nat.cast_one] at IH
      rw [IH]
      have httAll : ttf t k 0 1 0 (row :: rows)
          = t (dataCtx (k : Int) 1 1) row :: ttf t k 1 1 1 rows := by
        rw [ttf]
        norm_num
      rw [httAll, groupk_cons]
      simp only [List.singleton_append, List.length_cons, List.nil_append]
      rw [show (1 : Nat) + rows.length = rows.length + 1 by omega]

/-- Headers written: on an error-free source `h :: data`, `process` memoizes
`h`, puts its transform (header context, chunk 1) first in chunk 1 followed
by up to `k` transformed data rows, re-heads every later chunk from `h`, and
reports `data.length` — the header is not counted. -/
theorem process_withHeader (k : Nat) (hk : 1 ≤ k) (t : csvCtx → Row → Row) (h : Row)
    (data : List Row) :
    Processor.process
      { chunkSize := (k : Int), rowTransformer := totalT t, skipHeaders := false,
        header := none, reader := some (pureInput (h :: data)), outputChunkGenerator := some () }
    = Except.ok
        ((t (headerCtx (k : Int) 1) h :: (ttf t k 0 1 0 data).take k) ::
            hgroups t k h 2 ((ttf t k 0 1 0 data).drop k),
          (data.length : Int)) := by
  rw [Processor.process]
  simp only [Option.getD_some]
  rw [pureInput_cons, processLoop_cons, processStep]
  simp only [if_pos rfl, Bool.not_false, Bool.false_eq_true, if_false, writeRow_some,
    closeChunk_none, totalT, decide_True, if_true, zero_add, List.nil_append, writeHeaders,
    Option.getD_none]
  rw [ctx_header_eq (show _ = some (CtxVal.intVal ((k : Nat) : Int)) by
      rw [setValue_other _ _ (by decide), setValue_same])
    (setValue_same _ _ _)]
  simp only [Option.getD_some]
  have IH := processLoop_withHeader k hk t h data [] [t (headerCtx (k : Int) 1) h] 1 0
    (headerCtx (k : Int) 1)
    (by simp [headerCtx_chunkSize]) (by simp [headerCtx_chunkNum])
    (by omega) (le_refl 1)
  simp only [show (1 - 1) * k + 0 = 0 by simp, Nat.cast_zero, Nat.cast_one,
    show decide (0 = k) = false by simp; omega,
    Nat.sub_zero, Nat.zero_add, List.nil_append, List.singleton_append] at IH
  rw [IH]

theorem addToSliceAtIndex_zero (row : List String) (v : String) :
    addToSliceAtIndex row v 0 = v :: row := by
  simp [addToSliceAtIndex]

/-- C6: the chunk-relative row number transformer, on a non-header row whose
context carries global row ordinal `r ≥ 1` and chunk capacity `k ≥ 1`,
inserts `((r − 1) mod k) + 1` — the 1-based position within the current
chunk — at index 0; in particular the last row of a full chunk reports `k`,
never 0. -/
theorem c6_chunk_relative_row_number (columnName : String) (ctx : csvCtx) (row : Row)
    (r k : Int) (hr : 1 ≤ r) (hk : 1 ≤ k)
    (hrow : ctx CtxKey.rowNum = some (CtxVal.intVal r))
    (hcs : ctx CtxKey.chunkSize = some (CtxVal.intVal k))
    (hih : ctx CtxKey.isHeader = some (CtxVal.boolVal false)) :
    AddChunkRowNoTransformer columnName ctx row
      = some (toString ((r - 1) % k + 1) :: row) := by
  obtain ⟨rn, rfl⟩ : ∃ n : Nat, r = (n : Int) := ⟨r.toNat, (Int.toNat_of_nonneg (by omega)).symm⟩
  obtain ⟨kn, rfl⟩ : ∃ n : Nat, k = (n : Int) := ⟨k.toNat, (Int.toNat_of_nonneg (by omega)).symm⟩
  have hrn : 1 ≤ rn := by exact_mod_cast hr
  have hkn : 1 ≤ kn := by exact_mod_cast hk
  have hval : (if Int.tmod (rn : Int) ((kn : Nat) : Int) = 0 then ((kn : Nat) : Int)
        else Int.tmod (rn : Int) ((kn : Nat) : Int))
      = ((rn : Int) - 1) % ((kn : Nat) : Int) + 1 := by
    rw [tmod_coe]
    have hm := mod_rotate kn rn hkn hrn
    rw [show ((rn : Int) - 1) = ((rn - 1 : Nat) : Int) by rw [Nat.cast_sub hrn, Nat.cast_one]]
    rw [show ((rn - 1 : Nat) : Int) % ((kn : Nat) : Int) = (((rn - 1) % kn : Nat) : Int) from
      (Int.natCast_mod _ _).symm]
    by_cases h0 : rn % kn = 0
    · rw [if_pos (show ((rn % kn : Nat) : Int) = 0 by exact_mod_cast h0)]
      rw [if_pos h0] at hm
      exact_mod_cast hm
    · rw [if_neg (show ¬ ((rn % kn : Nat) : Int) = 0 by exact_mod_cast h0)]
      rw [if_neg h0] at hm
      exact_mod_cast hm
  simp only [AddChunkRowNoTransformer, hrow, hih, hcs, assertBool, assertInt,
    Bool.true_and, Bool.and_false, Bool.false_eq_true, if_false]
  rw [if_neg (show ¬ ((kn : Nat) : Int) = 0 by
    rw [Int.natCast_eq_zero]; omega)]
  rw [hval, addToSliceAtIndex_zero]

/-- C9: `ChainTransformers` applies the transformers in the given order,
each consuming the previous output: chaining `A` then `B` yields
`B(ctx, A(ctx, row))` (with a panic propagating through the chain);
composition is associative and order-preserving (splitting at any point of
the list composes), and the single per-row context `ctx` is the one passed,
unchanged, to every transformer in the chain. -/
theorem c9_chain_composition (A B C : CsvRowTransformer) (ts us : List CsvRowTransformer)
    (a b : csvCtx → Row → Row) (ctx : csvCtx) (row : Row) :
    ChainTransformers [A, B] ctx row = (A ctx row).bind (fun r => B ctx r)
    ∧ ChainTransformers [totalT a, totalT b] ctx row = some (b ctx (a ctx row))
    ∧ ChainTransformers (ts ++ us) ctx row
        = (ChainTransformers ts ctx row).bind (fun r => ChainTransformers us ctx r)
    ∧ ChainTransformers [ChainTransformers [A, B], C] ctx row
        = ChainTransformers [A, ChainTransformers [B, C]] ctx row := by
  refine ⟨?_, ?_, ?_, ?_⟩
  · simp only [ChainTransformers, List.foldlM_cons, List.foldlM_nil]
    cases A ctx row <;> simp
  · simp [ChainTransformers, totalT]
  · simp only [ChainTransformers]
    rw [List.foldlM_append]
    rfl
  · simp only [ChainTransformers, List.foldlM_cons, List.foldlM_nil]
    cases A ctx row <;> simp

/-- C7: `validate` fails with a distinct error for each of the three invalid
conditions — no row source, no chunk sink generator, chunk capacity ≤ 0 —
checking them in that order and succeeding otherwise; the three errors are
pairwise distinct; and a configuration rejected by `New` never runs:
`run` short-circuits to the configuration error, so no row is ever read and
no chunk is ever created. -/
theorem c7_validation (c : Processor) (opts : List ProcOption) (e : ValidationError) :
    (c.reader.isNone → validate c = Except.error ValidationError.inputReaderNil)
    ∧ (c.reader.isSome → c.outputChunkGenerator.isNone →
        validate c = Except.error ValidationError.outputChunkGeneratorNotSet)
    ∧ (c.reader.isSome → c.outputChunkGenerator.isSome → c.chunkSize ≤ 0 →
        validate c = Except.error ValidationError.invalidChunkSize)
    ∧ (c.reader.isSome → c.outputChunkGenerator.isSome → 0 < c.chunkSize →
        validate c = Except.ok c)
    ∧ (ValidationError.inputReaderNil ≠ ValidationError.outputChunkGeneratorNotSet
        ∧ ValidationError.inputReaderNil ≠ ValidationError.invalidChunkSize
        ∧ ValidationError.outputChunkGeneratorNotSet ≠ ValidationError.invalidChunkSize)
    ∧ (New opts = Except.error e → run opts = Except.error (RunError.config e)) := by
  refine ⟨?_, ?_, ?_, ?_, ⟨by decide, by decide, by decide⟩, ?_⟩
  · intro h
    simp [validate, h]
  · intro h1 h2
    obtain ⟨r, hr⟩ := Option.isSome_iff_exists.mp h1
    simp [validate, hr, Option.isNone_iff_eq_none.mp h2]
  · intro h1 h2 h3
    obtain ⟨r, hr⟩ := Option.isSome_iff_exists.mp h1
    obtain ⟨g, hg⟩ := Option.isSome_iff_exists.mp h2
    simp [validate, hr, hg, h3]
  · intro h1 h2 h3
    obtain ⟨r, hr⟩ := Option.isSome_iff_exists.mp h1
    obtain ⟨g, hg⟩ := Option.isSome_iff_exists.mp h2
    simp [validate, hr, hg, show ¬ c.chunkSize ≤ 0 by omega]
  · intro h
    simp [run, h]

/-- C4 (code evaluated at the failing input): a row source whose read
returns the row `["x"]` together with a non-EOF error `other "boom"`.
The source code of `process` checks the read error only with
`errors.Is(err, io.EOF)` and never returns it: the erroneous read is
processed as a normal row, a chunk is created, and `Process` reports
success — the pipeline does NOT abort and the error is NOT surfaced,
contradicting the claim. -/
theorem c4_read_error_ignored_behavior :
    Processor.process
      { chunkSize := 2, rowTransformer := NoOpTransformer, skipHeaders := true,
        header := none, reader := some [(["x"], some (GoErr.other "boom"))],
        outputChunkGenerator := some () }
      = Except.ok ([[["x"]]], 1)
    ∧ ∀ e : ProcessError,
      Processor.process
        { chunkSize := 2, rowTransformer := NoOpTransformer, skipHeaders := true,
          header := none, reader := some [(["x"], some (GoErr.other "boom"))],
          outputChunkGenerator := some () }
        ≠ Except.error e := by
  constructor
  · rfl
  · intro e hcon
    rw [show Processor.process
        { chunkSize := 2, rowTransformer := NoOpTransformer, skipHeaders := true,
          header := none, reader := some [(["x"], some (GoErr.other "boom"))],
          outputChunkGenerator := some () }
        = Except.ok ([[["x"]]], 1) from rfl] at hcon
    cases hcon

/-- C5 (code evaluated at the failing input): `PanicSafe` wraps a
transformer that always panics.  The recover block swallows the panic, but
the wrapped Go function then returns the zero value of its unnamed
`[]string` result — the nil row, not the input row.  Hence the wrapped
always-panicking transformer yields `some []` (not `["a","b"]`), the
pipeline writes an EMPTY row into the chunk, while the total row count (1)
matches the unwrapped identity transformer's: the "never propagates, never
terminates the pipeline, same row count" part of the claim holds, but the
"row reaches the output unchanged" part does not. -/
theorem c5_panicsafe_zero_value :
    PanicSafe (fun _ _ => none) newCtx ["a", "b"] = some []
    ∧ Processor.process
        { chunkSize := 2, rowTransformer := PanicSafe (fun _ _ => none), skipHeaders := true,
          header := none, reader := some (pureInput [["a", "b"]]), outputChunkGenerator := some () }
        = Except.ok ([[[]]], 1)
    ∧ Processor.process
        { chunkSize := 2, rowTransformer := NoOpTransformer, skipHeaders := true,
          header := none, reader := some (pureInput [["a", "b"]]), outputChunkGenerator := some () }
        = Except.ok ([[["a", "b"]]], 1) := by
  refine ⟨rfl, rfl, rfl⟩

/-- One engine step never raises a transformer panic when the transformer
succeeds on every context carrying the configured chunk size, and the
context invariant (`chunkSize` entry set) is preserved. -/
theorem processStep_no_panic (k : Int) (skip : Bool) (T : CsvRowTransformer)
    (hT : ∀ ctx row, ctx CtxKey.chunkSize = some (CtxVal.intVal k) → (T ctx row).isSome)
    (row : Row) (st : LoopState) (ctx : csvCtx)
    (hc : ctx CtxKey.chunkSize = some (CtxVal.intVal k)) :
    ∃ st' ctx', processStep k skip T row st ctx = Except.ok (st', ctx')
      ∧ ctx' CtxKey.chunkSize = some (CtxVal.intVal k) := by
  have hpres : ∀ (c : csvCtx), c CtxKey.chunkSize = some (CtxVal.intVal k) →
      ∀ (b : Bool) (v : Int), (setValue (setValue c CtxKey.isHeader (CtxVal.boolVal b))
        CtxKey.rowNum (CtxVal.intVal v)) CtxKey.chunkSize = some (CtxVal.intVal k) := by
    intro c hcc b v
    rw [setValue_other _ _ (by decide), setValue_other _ _ (by decide)]
    exact hcc
  cases hn : st.needNewChunk with
  | false =>
      cases ha : st.addHeaders with
      | false =>
          rw [processStep]
          simp only [hn, ha, Bool.false_eq_true, if_false]
          cases hdT : T (setValue (setValue ctx CtxKey.isHeader (CtxVal.boolVal false))
              CtxKey.rowNum (CtxVal.intVal (st.currentRow + 1))) row with
          | none =>
              have hs := hT _ row (hpres ctx hc false (st.currentRow + 1))
              rw [hdT] at hs
              simp at hs
          | some drow =>
              exact ⟨_, _, rfl, hpres ctx hc false (st.currentRow + 1)⟩
      | true =>
          rw [processStep]
          simp only [hn, ha, Bool.false_eq_true, if_false, if_true, writeHeaders,
            Option.getD_some]
          cases hhT : T (setValue (setValue ctx CtxKey.isHeader (CtxVal.boolVal true))
              CtxKey.rowNum (CtxVal.intVal (-1))) (st.header.getD row) with
          | none =>
              have hs := hT _ (st.header.getD row) (hpres ctx hc true (-1))
              rw [hhT] at hs
              simp at hs
          | some hrow =>
              simp only [decide_eq_true_eq]
              by_cases hf : st.currentRow = 0
              · rw [if_pos hf]
                exact ⟨_, _, rfl, hpres ctx hc true (-1)⟩
              · rw [if_neg hf]
                cases hdT : T (setValue (setValue (setValue (setValue ctx CtxKey.isHeader
                    (CtxVal.boolVal true)) CtxKey.rowNum (CtxVal.intVal (-1)))
                    CtxKey.isHeader (CtxVal.boolVal false))
                    CtxKey.rowNum (CtxVal.intVal (st.currentRow + 1))) row with
                | none =>
                    have hs := hT _ row (hpres _ (hpres ctx hc true (-1))
                      false (st.currentRow + 1))
                    rw [hdT] at hs
                    simp at hs
                | some drow =>
                    exact ⟨_, _, rfl, hpres _ (hpres ctx hc true (-1))
                      false (st.currentRow + 1)⟩
  | true =>
      have hc1 : (setValue ctx CtxKey.chunkNum (CtxVal.intVal (st.currentSplit + 1)))
          CtxKey.chunkSize = some (CtxVal.intVal k) := by
        rw [setValue_other _ _ (by decide)]
        exact hc
      cases hskip : skip with
      | true =>
          rw [processStep]
          simp only [hn, Bool.not_true, Bool.false_eq_true, if_false, if_true]
          cases hdT : T (setValue (setValue (setValue ctx CtxKey.chunkNum
              (CtxVal.intVal (st.currentSplit + 1))) CtxKey.isHeader (CtxVal.boolVal false))
              CtxKey.rowNum (CtxVal.intVal (st.currentRow + 1))) row with
          | none =>
              have hs := hT _ row (hpres _ hc1 false (st.currentRow + 1))
              rw [hdT] at hs
              simp at hs
          | some drow =>
              exact ⟨_, _, rfl, hpres _ hc1 false (st.currentRow + 1)⟩
      | false =>
          rw [processStep]
          simp only [hn, Bool.not_false, Bool.false_eq_true, if_false, if_true, writeHeaders,
            Option.getD_some]
          cases hhT : T (setValue (setValue (setValue ctx CtxKey.chunkNum
              (CtxVal.intVal (st.currentSplit + 1))) CtxKey.isHeader (CtxVal.boolVal true))
              CtxKey.rowNum (CtxVal.intVal (-1))) (st.header.getD row) with
          | none =>
              have hs := hT _ (st.header.getD row) (hpres _ hc1 true (-1))
              rw [hhT] at hs
              simp at hs
          | some hrow =>
              simp only [decide_eq_true_eq]
              by_cases hf : st.currentRow = 0
              · rw [if_pos hf]
                exact ⟨_, _, rfl, hpres _ hc1 true (-1)⟩
              · rw [if_neg hf]
                cases hdT : T (setValue (setValue (setValue (setValue (setValue ctx
                    CtxKey.chunkNum (CtxVal.intVal (st.currentSplit + 1))) CtxKey.isHeader
                    (CtxVal.boolVal true)) CtxKey.rowNum (CtxVal.intVal (-1)))
                    CtxKey.isHeader (CtxVal.boolVal false))
                    CtxKey.rowNum (CtxVal.intVal (st.currentRow + 1))) row with
                | none =>
                    have hs := hT _ row (hpres _ (hpres _ hc1 true (-1))
                      false (st.currentRow + 1))
                    rw [hdT] at hs
                    simp at hs
                | some drow =>
                    exact ⟨_, _, rfl, hpres _ (hpres _ hc1 true (-1))
                      false (st.currentRow + 1)⟩

/-- The engine loop never aborts with a transformer panic when the
transformer succeeds on every context carrying the configured chunk size. -/
theorem processLoop_no_panic (k : Int) (skip : Bool) (T : CsvRowTransformer)
    (hT : ∀ ctx row, ctx CtxKey.chunkSize = some (CtxVal.intVal k) → (T ctx row).isSome) :
    ∀ (inp : List ReadItem) (st : LoopState) (ctx : csvCtx),
      ctx CtxKey.chunkSize = some (CtxVal.intVal k) →
      processLoop k skip T inp st ctx ≠ Except.error ProcessError.transformerPanic
  | [], st, ctx, _hc => by
      rw [processLoop_nil]
      simp
  | (row, err) :: rest, st, ctx, hc => by
      rw [processLoop]
      by_cases he : err = some GoErr.eof
      · rw [if_pos he]
        simp
      · rw [if_neg he]
        obtain ⟨st', ctx', hstep, hc'⟩ := processStep_no_panic k skip T hT row st ctx hc
        rw [hstep]
        exact processLoop_no_panic k skip T hT rest st' ctx' hc'

/-- `AddChunkRowNoTransformer` cannot panic on a context whose chunk-size
entry holds the validated (positive) capacity: the divisor of
`rowID % chunkSize` is then non-zero. -/
theorem addChunkRowNo_isSome (columnName : String) (k : Int) (hk : 1 ≤ k) :
    ∀ ctx row, ctx CtxKey.chunkSize = some (CtxVal.intVal k) →
      (AddChunkRowNoTransformer columnName ctx row).isSome := by
  intro ctx row hc
  simp only [AddChunkRowNoTransformer, hc, assertInt]
  split
  · simp
  · rw [if_neg (by omega)]
    simp

/-- C10: the modulo in `AddChunkRowNoTransformer` cannot divide by zero for
any context constructed by the pipeline engine — validation admits only
`chunkSize ≥ 1` and the engine stores exactly that capacity under the
chunk-size key of every context, so a whole run never aborts with a
transformer panic — while a caller-supplied context lacking an integer
chunk-size value (and no header marking) makes the type assertion default
the capacity to 0 and `rowID % chunkSize` fault. -/
theorem c10_mod_safety (columnName : String) (k : Int) (row : Row) (ctx0 : csvCtx)
    (hk : 1 ≤ k) (skip : Bool) (hh : Option Row) (inp : List ReadItem)
    (hcs0 : ctx0 CtxKey.chunkSize = none) (hih0 : ctx0 CtxKey.isHeader = none) :
    Processor.process
      { chunkSize := k, rowTransformer := AddChunkRowNoTransformer columnName,
        skipHeaders := skip, header := hh, reader := some inp, outputChunkGenerator := some () }
      ≠ Except.error ProcessError.transformerPanic
    ∧ AddChunkRowNoTransformer columnName ctx0 row = none := by
  constructor
  · rw [Processor.process]
    simp only [Option.getD_some]
    apply processLoop_no_panic k skip _ (addChunkRowNo_isSome columnName k hk)
    rw [setValue_same]
  · simp [AddChunkRowNoTransformer, hih0, hcs0, assertBool, assertInt]

/-- A nonempty list no longer than the capacity forms exactly one group. -/
theorem groupk_short (k : Nat) (l : List α) (hl : l ≠ []) (hlen : l.length ≤ k) :
    groupk k l = [l] := by
  cases l with
  | nil => simp at hl
  | cons x rest =>
      rw [groupk_cons]
      rw [List.take_of_length_le (by simp at hlen ⊢; omega)]
      rw [List.drop_eq_nil_of_le (by simp at hlen ⊢; omega), groupk_nil]

/-- For a nonempty data stream the chunk list produced under the header
policy is exactly `hgroups` starting at chunk ordinal 1. -/
theorem withHeader_chunks_eq (t : csvCtx → Row → Row) (k : Nat) (h : Row) (hk : 1 ≤ k)
    (l : List Row) (hl : l ≠ []) :
    (t (headerCtx (k : Int) 1) h :: l.take k) :: hgroups t k h 2 (l.drop k)
      = hgroups t k h 1 l := by
  cases l with
  | nil => simp at hl
  | cons x rest =>
      rw [hgroups_cons]
      rw [show ((x :: rest).take k) = x :: rest.take (k - 1) by
        rw [show k = (k - 1) + 1 by omega, List.take_succ_cons]
        simp]
      rw [show ((x :: rest).drop k) = rest.drop (k - 1) by
        rw [show k = (k - 1) + 1 by omega, List.drop_succ_cons]
        simp]
      norm_num

/-- Every chunk before the last is full: index arithmetic. -/
theorem chunk_arith_mid (k n i : Nat) (hk : 1 ≤ k) (h1 : 1 ≤ n)
    (hi : i + 1 < (n + k - 1) / k) : i * k + k ≤ n := by
  have hq : (n + k - 1) / k = (n - 1) / k + 1 := by
    rw [show n + k - 1 = (n - 1) + k by omega, Nat.add_div_right _ (by omega)]
  rw [hq] at hi
  have h2 : i + 1 ≤ (n - 1) / k := by omega
  have h3 := (Nat.le_div_iff_mul_le (by omega)).mp h2
  have hik : (i + 1) * k = i * k + k := Nat.succ_mul i k
  omega

/-- The last chunk's size: index arithmetic. -/
theorem chunk_arith_last (k n : Nat) (hk : 1 ≤ k) (h1 : 1 ≤ n) :
    k ⊓ (n - ((n + k - 1) / k - 1) * k) = (n - 1) % k + 1
    ∧ (if n % k = 0 then k else n % k) = (n - 1) % k + 1 := by
  have hq : (n + k - 1) / k = (n - 1) / k + 1 := by
    rw [show n + k - 1 = (n - 1) + k by omega, Nat.add_div_right _ (by omega)]
  have hd := Nat.div_add_mod (n - 1) k
  have hmlt : (n - 1) % k < k := Nat.mod_lt _ (by omega)
  have hmul : ((n + k - 1) / k - 1) * k = k * ((n - 1) / k) := by
    rw [hq, Nat.add_sub_cancel, Nat.mul_comm]
  rw [hmul]
  constructor
  · have hx : n - k * ((n - 1) / k) = (n - 1) % k + 1 := by
      generalize k * ((n - 1) / k) = D at hd
      omega
    rw [hx]
    omega
  · exact mod_rotate k n hk h1

theorem one_le_length_groupk (k : Nat) (_hk : 1 ≤ k) (l : List α) (h1 : 1 ≤ l.length) :
    1 ≤ (groupk k l).length := by
  cases l with
  | nil => simp at h1
  | cons x rest => rw [groupk_cons]; simp

/-- Counting facts for `groupk`: number of groups, full middle groups,
size of the last group. -/
theorem groupk_length_facts (k : Nat) (hk : 1 ≤ k) (l : List α) (h1 : 1 ≤ l.length) :
    (groupk k l).length = (l.length + k - 1) / k
    ∧ (∀ i g, i + 1 < (groupk k l).length → (groupk k l)[i]? = some g → g.length = k)
    ∧ (∀ g, (groupk k l).getLast? = some g →
        g.length = if l.length % k = 0 then k else l.length % k) := by
  refine ⟨length_groupk k hk l, ?_, ?_⟩
  · intro i g hi hg
    rw [groupk_getElem k hk l i (by omega)] at hg
    cases hg
    simp only [List.length_take, List.length_drop]
    rw [length_groupk k hk l] at hi
    have := chunk_arith_mid k l.length i hk h1 hi
    omega
  · intro g hg
    have hq1 : 1 ≤ (groupk k l).length := one_le_length_groupk k hk l h1
    rw [List.getLast?_eq_getElem?] at hg
    rw [groupk_getElem k hk l _ (by omega)] at hg
    cases hg
    simp only [List.length_take, List.length_drop]
    rw [length_groupk k hk l]
    have ha := chunk_arith_last k l.length hk h1
    rw [ha.1, ha.2]

/-- Counting facts for `hgroups` (each group additionally holds its header
row). -/
theorem hgroups_length_facts (t : csvCtx → Row → Row) (k : Nat) (h : Row) (hk : 1 ≤ k)
    (l : List Row) (h1 : 1 ≤ l.length) :
    (hgroups t k h 1 l).length = (l.length + k - 1) / k
    ∧ (∀ i g, i + 1 < (hgroups t k h 1 l).length → (hgroups t k h 1 l)[i]? = some g →
        g.length = k + 1)
    ∧ (∀ g, (hgroups t k h 1 l).getLast? = some g →
        g.length = (if l.length % k = 0 then k else l.length % k) + 1) := by
  have hlen := length_hgroups t k h l 1
  refine ⟨by rw [hlen, length_groupk k hk l], ?_, ?_⟩
  · intro i g hi hg
    rw [hgroups_getElem t k h hk l 1 i (by omega)] at hg
    cases hg
    simp only [List.length_cons, List.length_take, List.length_drop]
    rw [hlen, length_groupk k hk l] at hi
    have := chunk_arith_mid k l.length i hk h1 hi
    omega
  · intro g hg
    have hq1 : 1 ≤ (hgroups t k h 1 l).length := by
      rw [hlen]
      exact one_le_length_groupk k hk l h1
    rw [List.getLast?_eq_getElem?] at hg
    rw [hgroups_getElem t k h hk l 1 _ (by omega)] at hg
    cases hg
    simp only [List.length_cons, List.length_take, List.length_drop]
    rw [hlen, length_groupk k hk l]
    have ha := chunk_arith_last k l.length hk h1
    rw [ha.1, ha.2]

/-- C1 (amended: at least one data row): with `n ≥ 1` data rows and
validated capacity `k ≥ 1`, the run produces exactly `⌈n/k⌉ = (n+k−1)/k`
chunks whether header emission is enabled or disabled; every chunk except
possibly the last receives exactly `k` data rows (with header emission each
chunk additionally holds its header row, hence `k + 1` rows), and the last
receives `n mod k` data rows (`k` when `n` is evenly divisible).  The
amendment is forced by `c1_counterexample`: with header emission enabled
and an input consisting of the header row alone (`n = 0`), one header-only
chunk is produced, not `⌈0/k⌉ = 0`. -/
theorem c1_chunk_counts (k n : Nat) (t : csvCtx → Row → Row) (h : Row)
    (rows data : List Row) (hk : 1 ≤ k) (hn : 1 ≤ n)
    (hrows : rows.length = n) (hdata : data.length = n) :
    (∀ chunks total,
      Processor.process
          { chunkSize := (k : Int), rowTransformer := totalT t, skipHeaders := true,
            header := none, reader := some (pureInput rows), outputChunkGenerator := some () }
        = Except.ok (chunks, total) →
      chunks.length = (n + k - 1) / k
      ∧ (∀ i g, i + 1 < chunks.length → chunks[i]? = some g → g.length = k)
      ∧ (∀ g, chunks.getLast? = some g → g.length = if n % k = 0 then k else n % k))
    ∧ (∀ chunks total,
      Processor.process
          { chunkSize := (k : Int), rowTransformer := totalT t, skipHeaders := false,
            header := none, reader := some (pureInput (h :: data)),
            outputChunkGenerator := some () }
        = Except.ok (chunks, total) →
      chunks.length = (n + k - 1) / k
      ∧ (∀ i g, i + 1 < chunks.length → chunks[i]? = some g → g.length = k + 1)
      ∧ (∀ g, chunks.getLast? = some g →
          g.length = (if n % k = 0 then k else n % k) + 1)) := by
  constructor
  · intro chunks total hrun
    rw [process_noHeader k hk t rows] at hrun
    have hc : groupk k (ttf t k 0 1 0 rows) = chunks := by
      injection hrun with h1
      injection h1 with h2 h3
    subst hc
    have hlen : (ttf t k 0 1 0 rows).length = n := by
      rw [length_ttf, hrows]
    have := groupk_length_facts k hk (ttf t k 0 1 0 rows) (by omega)
    rw [hlen] at this
    exact this
  · intro chunks total hrun
    rw [process_withHeader k hk t h data] at hrun
    have hnn : data ≠ [] := by
      intro hd
      rw [hd] at hdata
      simp at hdata
      omega
    have htt : (ttf t k 0 1 0 data) ≠ [] := by
      have hl := length_ttf t k data 0 1 0
      intro hd
      rw [hd] at hl
      simp at hl
      omega
    rw [withHeader_chunks_eq t k h hk _ htt] at hrun
    have hc : hgroups t k h 1 (ttf t k 0 1 0 data) = chunks := by
      injection hrun with h1
      injection h1 with h2 h3
    subst hc
    have hlen : (ttf t k 0 1 0 data).length = n := by
      rw [length_ttf, hdata]
    have := hgroups_length_facts t k h hk (ttf t k 0 1 0 data) (by omega)
    rw [hlen] at this
    exact this

/-- C2: with header emission enabled, the first row `h` ever read is
memoized once, globally: EVERY chunk the run produces — not just the
first — begins with the transformer applied, under a context carrying
`isHeader = true` and `rowOrdinal = −1` (and that chunk's ordinal), to the
byte-identical memoized first row `h`. -/
theorem c2_header_memoized (k : Nat) (t : csvCtx → Row → Row) (h : Row) (data : List Row)
    (hk : 1 ≤ k) (chunks : List (List Row)) (total : Int)
    (hrun : Processor.process
        { chunkSize := (k : Int), rowTransformer := totalT t, skipHeaders := false,
          header := none, reader := some (pureInput (h :: data)),
          outputChunkGenerator := some () }
      = Except.ok (chunks, total)) :
    ∀ i g, chunks[i]? = some g →
      g.head? = some (t (headerCtx (k : Int) ((i + 1 : Nat) : Int)) h) := by
  rw [process_withHeader k hk t h data] at hrun
  have hc : (t (headerCtx (k : Int) 1) h :: (ttf t k 0 1 0 data).take k) ::
      hgroups t k h 2 ((ttf t k 0 1 0 data).drop k) = chunks := by
    injection hrun with h1
    injection h1 with h2 h3
  subst hc
  intro i g hg
  cases i with
  | zero =>
      simp only [List.getElem?_cons_zero] at hg
      cases hg
      simp
  | succ i =>
      simp only [List.getElem?_cons_succ] at hg
      have hlt : i < (hgroups t k h 2 ((ttf t k 0 1 0 data).drop k)).length := by
        by_contra hcon
        rw [List.getElem?_eq_none (by omega)] at hg
        cases hg
      rw [hgroups_getElem t k h hk _ 2 i hlt] at hg
      cases hg
      rw [show (2 : Nat) + i = i + 1 + 1 by omega]
      simp

theorem take_pos_cons (n : Nat) (hn : 1 ≤ n) (a : α) (l : List α) :
    (a :: l).take n = a :: l.take (n - 1) := by
  rw [show n = (n - 1) + 1 by omega, List.take_succ_cons]
  simp

/-- A data row index beyond the first chunk lies within some later chunk. -/
theorem chunk_arith_trigger (k n j : Nat) (hk : 1 ≤ k) (hjk : (j + 1) * k < n) :
    j < (n - k + k - 1) / k := by
  have hik : (j + 1) * k = j * k + k := Nat.succ_mul j k
  have h2 : j * k ≤ n - k - 1 := by omega
  have h3 : j ≤ (n - k - 1) / k := (Nat.le_div_iff_mul_le (by omega)).mpr h2
  have hq : (n - k + k - 1) / k = (n - k - 1) / k + 1 := by
    rw [show n - k + k - 1 = (n - k - 1) + k by omega, Nat.add_div_right _ (by omega)]
  omega

/-- C3: with header emission enabled on input `h :: data`, the very first
row is consumed as header only: the final row count equals `data.length`
(the header row is never counted), the first chunk is the transformed
header followed by the transforms of the first `k` DATA rows (so `h` is not
also written as data and no new-chunk decision is taken for it); and for
every subsequent chunk `i ≥ 1`, the chunk is re-headed from the memoized
`h` and the row that triggered it — data row `i·k`, global ordinal
`i·k + 1` — is written as an ordinary data row of that same chunk, right
after the header. -/
theorem c3_first_chunk_special_case (k : Nat) (t : csvCtx → Row → Row) (h : Row) (data : List Row)
    (hk : 1 ≤ k) (chunks : List (List Row)) (total : Int)
    (hrun : Processor.process
        { chunkSize := (k : Int), rowTransformer := totalT t, skipHeaders := false,
          header := none, reader := some (pureInput (h :: data)),
          outputChunkGenerator := some () }
      = Except.ok (chunks, total)) :
    total = (data.length : Int)
    ∧ chunks.head? = some (t (headerCtx (k : Int) 1) h :: (ttf t k 0 1 0 data).take k)
    ∧ (∀ i d, 1 ≤ i → data[i * k]? = some d →
        ∃ rest2, chunks[i]? = some (t (headerCtx (k : Int) ((i + 1 : Nat) : Int)) h ::
          t (dataCtx (k : Int) ((i + 1 : Nat) : Int) ((i * k + 1 : Nat) : Int)) d :: rest2)) := by
  rw [process_withHeader k hk t h data] at hrun
  have hc : (t (headerCtx (k : Int) 1) h :: (ttf t k 0 1 0 data).take k) ::
      hgroups t k h 2 ((ttf t k 0 1 0 data).drop k) = chunks := by
    injection hrun with h1
    injection h1 with h2 h3
  have ht : total = (data.length : Int) := by
    injection hrun with h1
    injection h1 with h2 h3
    exact h3.symm
  subst hc
  refine ⟨ht, by simp, ?_⟩
  intro i d h1i hd
  obtain ⟨j, rfl⟩ : ∃ j, i = j + 1 := ⟨i - 1, by omega⟩
  have hlen : (ttf t k 0 1 0 data).length = data.length := length_ttf t k data 0 1 0
  have hidx : (j + 1) * k < data.length := by
    by_contra hcon
    rw [List.getElem?_eq_none (by omega)] at hd
    cases hd
  have hlt : j < (hgroups t k h 2 ((ttf t k 0 1 0 data).drop k)).length := by
    rw [length_hgroups, length_groupk k hk]
    simp only [List.length_drop, hlen]
    exact chunk_arith_trigger k data.length j hk hidx
  simp only [List.getElem?_cons_succ]
  rw [hgroups_getElem t k h hk _ 2 j hlt]
  rw [List.drop_drop]
  have hik : (j + 1) * k = j * k + k := Nat.succ_mul j k
  rw [show k + j * k = (j + 1) * k by rw [hik]; omega]
  have hidx2 : (j + 1) * k < (ttf t k 0 1 0 data).length := by omega
  rw [List.drop_eq_getElem_cons hidx2]
  have hgetq := ttf_getElem t k data 0 1 0 ((j + 1) * k) (by omega)
  rw [hd] at hgetq
  simp only [Option.map_some', Nat.zero_add] at hgetq
  rw [List.getElem?_eq_getElem hidx2] at hgetq
  have hget := Option.some.inj hgetq
  rw [hget]
  rw [take_pos_cons k hk]
  rw [show (2 : Nat) + j = j + 1 + 1 by omega]
  rw [show 1 + (j + 1) * k / k = j + 1 + 1 by
    rw [Nat.mul_div_cancel _ (show 0 < k by omega)]
    omega]
  rw [show 1 + (j + 1) * k = (j + 1) * k + 1 by omega]
  exact ⟨_, rfl⟩

/-- C8 (amended: nonempty input): for a nonempty input whose data-row count
is at most `k`, the run produces exactly one chunk containing all data rows
(plus one header row first when header emission is enabled).  The amendment
is forced by `c8_counterexample`: an empty input produces zero chunks. -/
theorem c8_single_chunk (k : Nat) (t : csvCtx → Row → Row) (h : Row) (rows data : List Row)
    (hk : 1 ≤ k) (hrows : rows ≠ []) (hkr : rows.length ≤ k) (hkd : data.length ≤ k) :
    Processor.process
        { chunkSize := (k : Int), rowTransformer := totalT t, skipHeaders := true,
          header := none, reader := some (pureInput rows), outputChunkGenerator := some () }
      = Except.ok ([ttf t k 0 1 0 rows], (rows.length : Int))
    ∧ Processor.process
        { chunkSize := (k : Int), rowTransformer := totalT t, skipHeaders := false,
          header := none, reader := some (pureInput (h :: data)),
          outputChunkGenerator := some () }
      = Except.ok ([t (headerCtx (k : Int) 1) h :: ttf t k 0 1 0 data],
          (data.length : Int)) := by
  have hlr := length_ttf t k rows 0 1 0
  have hld := length_ttf t k data 0 1 0
  constructor
  · rw [process_noHeader k hk t rows]
    rw [groupk_short k _ (by
        intro hc
        rw [hc] at hlr
        simp at hlr
        exact hrows (List.eq_nil_of_length_eq_zero hlr.symm))
      (by omega)]
  · rw [process_withHeader k hk t h data]
    rw [List.take_of_length_le (by omega), List.drop_eq_nil_of_le (by omega), hgroups_nil]

/-- C1 counterexample: header emission enabled, capacity `k = 1`, input
consisting solely of the header row — `n = 0` data rows.  The run produces
1 chunk (header only), but the claim demands `⌈n/k⌉ = (0+1−1)/1 = 0`
chunks. -/
theorem c1_counterexample :
    Processor.process
      { chunkSize := 1, rowTransformer := NoOpTransformer, skipHeaders := false,
        header := none, reader := some (pureInput [["h"]]), outputChunkGenerator := some () }
      = Except.ok ([[["h"]]], 0)
    ∧ ([[["h"]]] : List (List Row)).length ≠ (0 + 1 - 1) / 1 :=
  ⟨rfl, by decide⟩

/-- C8 counterexample: an empty input with capacity `k = 5 ≥ 0` data rows
produces zero chunks, not the single chunk the claim demands for every
input. -/
theorem c8_counterexample :
    Processor.process
      { chunkSize := 5, rowTransformer := NoOpTransformer, skipHeaders := true,
        header := none, reader := some (pureInput []), outputChunkGenerator := some () }
      = Except.ok ([], 0)
    ∧ ([] : List (List Row)).length ≠ 1 :=
  ⟨rfl, by decide⟩

/-! ## Witnesses -/

/-- Witness for `c1_chunk_counts`: capacity 2, three data rows, both modes concrete. -/
theorem c1_chunk_counts_witness :
    Processor.process
        { chunkSize := ((2 : Nat) : Int), rowTransformer := totalT (fun _ r => r),
          skipHeaders := true, header := none,
          reader := some (pureInput [["a"], ["b"], ["c"]]), outputChunkGenerator := some () }
      = Except.ok ([[["a"], ["b"]], [["c"]]], 3)
    ∧ (3 + 2 - 1) / 2 = 2
    ∧ (∀ chunks total,
        Processor.process
            { chunkSize := ((2 : Nat) : Int), rowTransformer := totalT (fun _ r => r),
              skipHeaders := true, header := none,
              reader := some (pureInput [["a"], ["b"], ["c"]]),
              outputChunkGenerator := some () }
          = Except.ok (chunks, total) →
        chunks.length = (3 + 2 - 1) / 2
        ∧ (∀ i g, i + 1 < chunks.length → chunks[i]? = some g → g.length = 2)
        ∧ (∀ g, chunks.getLast? = some g → g.length = if 3 % 2 = 0 then 2 else 3 % 2)) :=
  ⟨rfl, by decide,
    (c1_chunk_counts 2 3 (fun _ r => r) ["H"] [["a"], ["b"], ["c"]] [["a"], ["b"], ["c"]]
      (by decide) (by decide) (by decide) (by decide)).1⟩

/-- Witness for `c2_header_memoized`: capacity 1, header plus two data rows. -/
theorem c2_header_memoized_witness :
    Processor.process
        { chunkSize := ((1 : Nat) : Int), rowTransformer := totalT (fun _ r => r),
          skipHeaders := false, header := none,
          reader := some (pureInput [["H"], ["a"], ["b"]]), outputChunkGenerator := some () }
      = Except.ok ([[["H"], ["a"]], [["H"], ["b"]]], 2)
    ∧ (∀ i g, ([[["H"], ["a"]], [["H"], ["b"]]] : List (List Row))[i]? = some g →
        g.head? = some ((fun _ r => r : csvCtx → Row → Row)
          (headerCtx ((1 : Nat) : Int) ((i + 1 : Nat) : Int)) ["H"])) :=
  ⟨rfl,
    c2_header_memoized 1 (fun _ r => r) ["H"] [["a"], ["b"]] (by decide)
      [[["H"], ["a"]], [["H"], ["b"]]] 2 rfl⟩

/-- Witness for `c3_first_chunk_special_case`: capacity 1, header plus two data rows. -/
theorem c3_first_chunk_special_case_witness :
    Processor.process
        { chunkSize := ((1 : Nat) : Int), rowTransformer := totalT (fun _ r => r),
          skipHeaders := false, header := none,
          reader := some (pureInput [["H"], ["a"], ["b"]]), outputChunkGenerator := some () }
      = Except.ok ([[["H"], ["a"]], [["H"], ["b"]]], 2)
    ∧ ((2 : Int) = ((([["a"], ["b"]] : List Row).length : Nat) : Int)
    ∧ ([[["H"], ["a"]], [["H"], ["b"]]] : List (List Row)).head?
        = some ((fun _ r => r : csvCtx → Row → Row) (headerCtx ((1 : Nat) : Int) 1) ["H"]
            :: (ttf (fun _ r => r) 1 0 1 0 [["a"], ["b"]]).take 1)
    ∧ (∀ i d, 1 ≤ i → ([["a"], ["b"]] : List Row)[i * 1]? = some d →
        ∃ rest2, ([[["H"], ["a"]], [["H"], ["b"]]] : List (List Row))[i]?
          = some ((fun _ r => r : csvCtx → Row → Row)
              (headerCtx ((1 : Nat) : Int) ((i + 1 : Nat) : Int)) ["H"] ::
            (fun _ r => r : csvCtx → Row → Row)
              (dataCtx ((1 : Nat) : Int) ((i + 1 : Nat) : Int) ((i * 1 + 1 : Nat) : Int)) d
              :: rest2))) :=
  ⟨rfl,
    c3_first_chunk_special_case 1 (fun _ r => r) ["H"] [["a"], ["b"]] (by decide)
      [[["H"], ["a"]], [["H"], ["b"]]] 2 rfl⟩

/-- Witness for `c4_read_error_ignored_behavior` at the transformer-panic error. -/
theorem c4_read_error_ignored_witness :
    Processor.process
      { chunkSize := 2, rowTransformer := NoOpTransformer, skipHeaders := true,
        header := none, reader := some [(["x"], some (GoErr.other "boom"))],
        outputChunkGenerator := some () }
      ≠ Except.error ProcessError.transformerPanic :=
  c4_read_error_ignored_behavior.2 ProcessError.transformerPanic

/-- Witness for `c6_chunk_relative_row_number`: r = 202, k = 100 gives "2". -/
theorem c6_chunk_relative_row_number_witness :
    AddChunkRowNoTransformer "id" (dataCtx 100 3 202) ["x"]
      = some (toString (((202 : Int) - 1) % 100 + 1) :: ["x"])
    ∧ AddChunkRowNoTransformer "id" (dataCtx 100 3 202) ["x"] = some ["2", "x"] :=
  ⟨c6_chunk_relative_row_number "id" (dataCtx 100 3 202) ["x"] 202 100 (by decide) (by decide)
      rfl rfl rfl, rfl⟩

/-- Witness for `c7_validation`: each invalid configuration produces its own error. -/
theorem c7_validation_witness :
    validate defaultProcessor = Except.error ValidationError.inputReaderNil
    ∧ validate { defaultProcessor with reader := some [] }
        = Except.error ValidationError.outputChunkGeneratorNotSet
    ∧ validate { defaultProcessor with reader := some [], outputChunkGenerator := some () }
        = Except.error ValidationError.invalidChunkSize
    ∧ run [] = Except.error (RunError.config ValidationError.inputReaderNil) :=
  ⟨(c7_validation defaultProcessor [] ValidationError.inputReaderNil).1 rfl,
    (c7_validation { defaultProcessor with reader := some [] } []
      ValidationError.inputReaderNil).2.1 rfl rfl,
    (c7_validation { defaultProcessor with reader := some [], outputChunkGenerator := some () }
      [] ValidationError.inputReaderNil).2.2.1 rfl rfl (by decide),
    (c7_validation defaultProcessor [] ValidationError.inputReaderNil).2.2.2.2.2 rfl⟩

/-- Witness for `c8_single_chunk`: capacity 3, two data rows, both modes concrete. -/
theorem c8_single_chunk_witness :
    Processor.process
        { chunkSize := ((3 : Nat) : Int), rowTransformer := totalT (fun _ r => r),
          skipHeaders := true, header := none,
          reader := some (pureInput [["a"], ["b"]]), outputChunkGenerator := some () }
      = Except.ok ([ttf (fun _ r => r) 3 0 1 0 [["a"], ["b"]]], 2)
    ∧ Processor.process
        { chunkSize := ((3 : Nat) : Int), rowTransformer := totalT (fun _ r => r),
          skipHeaders := false, header := none,
          reader := some (pureInput [["H"], ["a"], ["b"]]), outputChunkGenerator := some () }
      = Except.ok ([(fun _ r => r : csvCtx → Row → Row) (headerCtx ((3 : Nat) : Int) 1) ["H"]
          :: ttf (fun _ r => r) 3 0 1 0 [["a"], ["b"]]], 2)
    ∧ ttf (fun _ r => r) 3 0 1 0 [["a"], ["b"]] = [["a"], ["b"]] :=
  ⟨(c8_single_chunk 3 (fun _ r => r) ["H"] [["a"], ["b"]] [["a"], ["b"]]
      (by decide) (by decide) (by decide) (by decide)).1,
    (c8_single_chunk 3 (fun _ r => r) ["H"] [["a"], ["b"]] [["a"], ["b"]]
      (by decide) (by decide) (by decide) (by decide)).2,
    rfl⟩

/-- Witness for `c10_mod_safety`: capacity 1, one row, and the bare-context fault. -/
theorem c10_mod_safety_witness :
    (Processor.process
        { chunkSize := 1, rowTransformer := AddChunkRowNoTransformer "id",
          skipHeaders := true, header := none, reader := some (pureInput [["a"]]),
          outputChunkGenerator := some () }
        ≠ Except.error ProcessError.transformerPanic
      ∧ AddChunkRowNoTransformer "id" newCtx ["a"] = none)
    ∧ Processor.process
        { chunkSize := 1, rowTransformer := AddChunkRowNoTransformer "id",
          skipHeaders := true, header := none, reader := some (pureInput [["a"]]),
          outputChunkGenerator := some () }
      = Except.ok ([[["1", "a"]]], 1) :=
  ⟨c10_mod_safety "id" 1 ["a"] newCtx (by decide) true none (pureInput [["a"]]) rfl rfl,
    rfl⟩
